import Mathlib

/-!
Shallow embedding of `src/file_buffer.rs` from the BufFile-rs repository.

The Rust code implements a slab cache (`BufFile`) over a backing store
`F : Write + Read + Seek`.  The embedding below translates that code into
plain Lean functions:

* machine integers (`usize`, `u64`) become `Nat`; the Rust code is compiled
  with debug assertions in the repository's own test suite, so arithmetic
  overflow/underflow and out-of-range slice indexing are modelled as a
  `panic` outcome (`Err.panic`) rather than silent wrapping;
* the backing store is modelled by `FileM`: a byte list, a position, and a
  fault-injection schedule (`faults`) that decides, per primitive I/O call,
  whether that call fails with an I/O error (this models the "each fallible
  with an I/O-style error" interface of the store);
* the external `lru_cache::LruCache` dependency is modelled by `LruCache`:
  an association list kept in recency order (most-recently-used first) with
  a capacity field, following that crate's documented behaviour
  (`get_mut` refreshes recency, `insert` inserts as most-recently-used and
  evicts the least-recently-used entry if the length exceeds capacity,
  `remove_lru` removes the least-recently-used entry);
* the source's compile-time constant `SLAB_SIZE` is kept as the definition
  `SLAB_SIZE`; every operation takes the slab size as an explicit first
  parameter `SZ` so that theorems can be stated for the constant itself and
  for small instances alike;
* slab data (`data: Box<[u8]>`, a fixed `SLAB_SIZE`-byte block) is modelled
  as a function `Nat → Nat` giving the byte at each index; only indices
  below the slab size are ever read or written.

All state-changing operations return their result as an explicit pair
`(Except Err α) × state`, so that the state reached at the moment an error
is returned (which the Rust `?` operator leaves behind in `&mut self`) is
observable.
-/

namespace BufFileRs

/-- Decidable equality of `Except` results, for concrete trace comparisons. -/
instance instDecEqExcept {ε α : Type} [DecidableEq ε] [DecidableEq α] :
    DecidableEq (Except ε α) := fun x y =>
  match x, y with
  | .ok a, .ok b =>
    if h : a = b then .isTrue (by rw [h]) else .isFalse (fun hh => by cases hh; exact h rfl)
  | .ok _, .error _ => .isFalse (fun hh => by cases hh)
  | .error _, .ok _ => .isFalse (fun hh => by cases hh)
  | .error e, .error e2 =>
    if h : e = e2 then .isTrue (by rw [h]) else .isFalse (fun hh => by cases hh; exact h rfl)

/-- `const SLAB_SIZE: usize = 512*1024;` from the source. -/
def SLAB_SIZE : Nat := 512 * 1024

/-- `const DEFAULT_CAPACITY: usize = 16;` from the source. -/
def DEFAULT_CAPACITY : Nat := 16

/-- Size of the `u64` value space, for the checked cursor arithmetic. -/
def U64_MOD : Nat := 2 ^ 64

/-- Outcomes of a fallible operation: a propagated backing-store I/O error
(carrying the code injected by the fault schedule), or a Rust panic/abort
(arithmetic overflow or slice indexing out of range under debug assertions). -/
inductive Err where
  | io (code : Nat)
  | panic
  deriving DecidableEq, Repr

/-- Debug-mode `usize`/`u64` subtraction: panics on underflow. -/
def checkedSub (a b : Nat) : Except Err Nat :=
  if b ≤ a then .ok (a - b) else .error .panic

/-- Debug-mode `u64` addition: panics on overflow past `2^64 - 1`. -/
def checkedAddU64 (a b : Nat) : Except Err Nat :=
  if a + b < U64_MOD then .ok (a + b) else .error .panic

/-- Model of the backing store `F : Write + Read + Seek`: the stored bytes,
the store's own cursor, and a fault-injection schedule.  Every primitive
I/O call consumes the head of `faults`; `some c` makes that call fail with
I/O error code `c`, `none` (or an exhausted schedule) lets it succeed. -/
structure FileM where
  contents : List Nat
  pos : Nat
  faults : List (Option Nat)
  deriving Repr

/-- Consume one entry of the fault schedule. -/
def FileM.step (f : FileM) : Option Nat × FileM :=
  match f.faults with
  | [] => (none, f)
  | o :: rest => (o, { f with faults := rest })

/-- Overwrite `l` at position `pos` with the bytes `bs`, zero-filling any gap
between the end of `l` and `pos` and extending the list as needed (the
write-past-end behaviour of a regular file). -/
def listWrite (l : List Nat) (pos : Nat) (bs : List Nat) : List Nat :=
  (l.take pos ++ List.replicate (pos - l.length) 0) ++ bs ++ l.drop (pos + bs.length)

/-- One `Read::read` call on the backing store: returns up to `n` bytes from
the current position (fewer only at end of data) and advances the position. -/
def FileM.read (f : FileM) (n : Nat) : (Except Err (List Nat)) × FileM :=
  match f.step with
  | (some c, f) => (.error (.io c), f)
  | (none, f) =>
    let k := min n (f.contents.length - f.pos)
    (.ok ((f.contents.drop f.pos).take k), { f with pos := f.pos + k })

/-- One `Write::write_all` call on the backing store: writes all of `bs` at
the current position. -/
def FileM.writeAll (f : FileM) (bs : List Nat) : (Except Err Unit) × FileM :=
  match f.step with
  | (some c, f) => (.error (.io c), f)
  | (none, f) =>
    (.ok (), { f with contents := listWrite f.contents f.pos bs, pos := f.pos + bs.length })

/-- `seek(SeekFrom::Start(off))` on the backing store. -/
def FileM.seekStart (f : FileM) (off : Nat) : (Except Err Nat) × FileM :=
  match f.step with
  | (some c, f) => (.error (.io c), f)
  | (none, f) => (.ok off, { f with pos := off })

/-- `seek(SeekFrom::End(d))` on the backing store. -/
def FileM.seekEnd (f : FileM) (d : Int) : (Except Err Nat) × FileM :=
  match f.step with
  | (some c, f) => (.error (.io c), f)
  | (none, f) =>
    let t : Int := (f.contents.length : Int) + d
    if t < 0 then (.error (.io 0), f) else (.ok t.toNat, { f with pos := t.toNat })

/-- `seek(SeekFrom::Current(d))` on the backing store. -/
def FileM.seekCurrent (f : FileM) (d : Int) : (Except Err Nat) × FileM :=
  match f.step with
  | (some c, f) => (.error (.io c), f)
  | (none, f) =>
    let t : Int := (f.pos : Int) + d
    if t < 0 then (.error (.io 0), f) else (.ok t.toNat, { f with pos := t.toNat })

/-- `Write::flush` on the backing store (no observable effect on contents). -/
def FileM.flush (f : FileM) : (Except Err Unit) × FileM :=
  match f.step with
  | (some c, f) => (.error (.io c), f)
  | (none, f) => (.ok (), f)

/-- Read `len` bytes of a slab block starting at index `off`. -/
def readBytes (d : Nat → Nat) (off len : Nat) : List Nat :=
  (List.range len).map (fun i => d (off + i))

/-- Overwrite a slab block with the bytes `bs` starting at index `off`
(the model of `copy_from_slice` into `data[off .. off + bs.length]`). -/
def writeBytes (d : Nat → Nat) (off : Nat) (bs : List Nat) : Nat → Nat :=
  fun i => if off ≤ i ∧ i < off + bs.length then bs.getD (i - off) 0 else d i

/-- The `Slab` struct from the source: a fixed block of bytes, the count of
bytes used at its start, and the dirty flag. -/
structure Slab where
  data : Nat → Nat
  bytes_used : Nat
  dirty : Bool

/-- `Slab::new()`: a fresh block with `bytes_used = 0`, not dirty.  The
source zero-initialises the block under debug assertions (and leaves it
unspecified in release builds); the model uses the zeroed block. -/
def Slab.new : Slab :=
  { data := fun _ => 0, bytes_used := 0, dirty := false }

/-- `Slab::flush(&mut self, f, offset)` from the source: if dirty, seek the
store to `offset`, write the entire `SZ`-byte block with `write_all`, and
clear `dirty` only when both calls succeed. -/
def Slab.flush (SZ : Nat) (s : Slab) (f : FileM) (offset : Nat) :
    (Except Err Unit) × Slab × FileM :=
  if s.dirty then
    match f.seekStart offset with
    | (.error e, f) => (.error e, s, f)
    | (.ok _, f) =>
      match f.writeAll (readBytes s.data 0 SZ) with
      | (.error e, f) => (.error e, s, f)
      | (.ok _, f) => (.ok (), { s with dirty := false }, f)
  else (.ok (), s, f)

/-- Model of the external `lru_cache::LruCache` keyed by `usize`: entries in
recency order, most-recently-used first, plus the fixed capacity. -/
structure LruCache (α : Type) where
  entries : List (Nat × α)
  capacity : Nat

/-- `LruCache::len`. -/
def LruCache.len {α : Type} (c : LruCache α) : Nat :=
  c.entries.length

/-- Value stored at key `k`, if present. -/
def LruCache.lookup {α : Type} (c : LruCache α) (k : Nat) : Option α :=
  (c.entries.find? (fun e => e.1 == k)).map Prod.snd

/-- `LruCache::contains_key`. -/
def LruCache.contains_key {α : Type} (c : LruCache α) (k : Nat) : Bool :=
  c.entries.any (fun e => e.1 == k)

/-- Recency refresh performed by `LruCache::get_mut`: move the entry at `k`
to the most-recently-used position. -/
def LruCache.touch {α : Type} (c : LruCache α) (k : Nat) : LruCache α :=
  match c.entries.find? (fun e => e.1 == k) with
  | none => c
  | some e => { c with entries := e :: c.entries.eraseP (fun e2 => e2.1 == k) }

/-- `LruCache::insert`: insert as most-recently-used (replacing any entry
with the same key), then drop the least-recently-used entry if the length
exceeds the capacity. -/
def LruCache.insert {α : Type} (c : LruCache α) (k : Nat) (v : α) : LruCache α :=
  let es := (k, v) :: c.entries.eraseP (fun e => e.1 == k)
  { c with entries := if c.capacity < es.length then es.dropLast else es }

/-- `LruCache::remove_lru`: remove and return the least-recently-used entry. -/
def LruCache.remove_lru {α : Type} (c : LruCache α) :
    Option ((Nat × α) × LruCache α) :=
  match c.entries.getLast? with
  | none => none
  | some e => some (e, { c with entries := c.entries.dropLast })

/-- Write the value held under key `k` back into the cache without changing
recency: the model of mutating a slab through the `&mut Slab` handle that
`fetch_slab` returned. -/
def LruCache.update {α : Type} (c : LruCache α) (k : Nat) (v : α) : LruCache α :=
  { c with entries := c.entries.map (fun e => if e.1 == k then (k, v) else e) }

/-- The `BufFile` struct: the slab cache, the backing store (the source's
`file: Option<F>` is `Some` throughout every operation modelled here), and
the logical cursor. -/
structure BufFile where
  slabs : LruCache Slab
  file : FileM
  cursor : Nat

/-- `BufFile::with_capacity`: query the store's current position with
`seek(SeekFrom::Current(0))` and start with an empty cache. -/
def BufFile.with_capacity (file : FileM) (capacity : Nat) : Except Err BufFile :=
  match file.seekCurrent 0 with
  | (.error e, _) => .error e
  | (.ok current, file) =>
    .ok { slabs := { entries := [], capacity := capacity }, file := file, cursor := current }

/-- `BufFile::new`: `with_capacity` at the default capacity. -/
def BufFile.new (file : FileM) : Except Err BufFile :=
  BufFile.with_capacity file DEFAULT_CAPACITY

/-- `BufFile::cursor_loc`. -/
def BufFile.cursor_loc (b : BufFile) : Nat :=
  b.cursor

/-- `BufFile::add_slab(idx)` from the source: when the cache is full, remove
the least-recently-used entry, write it back at `old_idx * SZ` (propagating
any error), reset its `bytes_used` and reuse its block; otherwise allocate a
fresh slab.  Finally insert the slab at `idx`.  The returned slab is the one
now cached at `idx`. -/
def BufFile.add_slab (SZ : Nat) (b : BufFile) (idx : Nat) :
    (Except Err Slab) × BufFile :=
  if b.slabs.len = b.slabs.capacity then
    match b.slabs.remove_lru with
    | none => (.error .panic, b)
    | some ((old_idx, old_slab), slabs) =>
      let old_offset := old_idx * SZ
      match Slab.flush SZ old_slab b.file old_offset with
      | (.error e, _, file) => (.error e, { b with slabs := slabs, file := file })
      | (.ok _, old_slab, file) =>
        let slab := { old_slab with bytes_used := 0 }
        (.ok slab, { b with slabs := slabs.insert idx slab, file := file })
  else
    let slab := Slab.new
    (.ok slab, { b with slabs := b.slabs.insert idx slab })

/-- `BufFile::fetch_slab(idx)`: return the cached slab (refreshing recency
via `get_mut`) or load it with `add_slab`. -/
def BufFile.fetch_slab (SZ : Nat) (b : BufFile) (idx : Nat) :
    (Except Err Slab) × BufFile :=
  if b.slabs.contains_key idx then
    match b.slabs.lookup idx with
    | some slab => (.ok slab, { b with slabs := b.slabs.touch idx })
    | none => (.error .panic, b)
  else
    b.add_slab SZ idx

/-- `fn idx_from_offset(offset) = offset / SLAB_SIZE`. -/
def idx_from_offset (SZ : Nat) (offset : Nat) : Nat :=
  offset / SZ

/-- The demand-fill loop of `Read for BufFile::read`:
`while cursor_offset >= slab.bytes_used { read into data[bytes_used..]; break on 0 }`.
The loop is modelled with an explicit iteration bound `fuel`; every
non-breaking iteration increases `bytes_used` by at least one, so the bound
chosen in `readFill` is never reached. -/
def readFillLoop (SZ cursor_offset : Nat) :
    Nat → Slab → FileM → (Except Err Unit) × Slab × FileM
  | 0, slab, file => (.ok (), slab, file)
  | fuel + 1, slab, file =>
    if slab.bytes_used ≤ cursor_offset then
      match file.read (SZ - slab.bytes_used) with
      | (.error e, file) => (.error e, slab, file)
      | (.ok bytes, file) =>
        if bytes.length = 0 then (.ok (), slab, file)
        else
          readFillLoop SZ cursor_offset fuel
            { slab with
                data := writeBytes slab.data slab.bytes_used bytes,
                bytes_used := slab.bytes_used + bytes.length } file
    else (.ok (), slab, file)

/-- The fill loop of `read`, with a sufficient iteration bound. -/
def readFill (SZ cursor_offset : Nat) (slab : Slab) (file : FileM) :
    (Except Err Unit) × Slab × FileM :=
  readFillLoop SZ cursor_offset (cursor_offset + 1 - slab.bytes_used + 1) slab file

/-- The hole-fill loop of `Write for BufFile::write`:
`while cursor_offset > slab.bytes_used { read into data[bytes_used..cursor_offset]; break on 0 }`. -/
def writeFillLoop (cursor_offset : Nat) :
    Nat → Slab → FileM → (Except Err Unit) × Slab × FileM
  | 0, slab, file => (.ok (), slab, file)
  | fuel + 1, slab, file =>
    if slab.bytes_used < cursor_offset then
      match file.read (cursor_offset - slab.bytes_used) with
      | (.error e, file) => (.error e, slab, file)
      | (.ok bytes, file) =>
        if bytes.length = 0 then (.ok (), slab, file)
        else
          writeFillLoop cursor_offset fuel
            { slab with
                data := writeBytes slab.data slab.bytes_used bytes,
                bytes_used := slab.bytes_used + bytes.length } file
    else (.ok (), slab, file)

/-- The hole-fill loop of `write`, with a sufficient iteration bound. -/
def writeFill (cursor_offset : Nat) (slab : Slab) (file : FileM) :
    (Except Err Unit) × Slab × FileM :=
  writeFillLoop cursor_offset (cursor_offset + 1 - slab.bytes_used + 1) slab file

/-- `Read for BufFile::read(buf)` from the source, for a caller buffer of
length `bufLen`.  Returns the bytes copied into the buffer (their count is
the Rust return value).  After the fill loop the source computes
`len = slab.bytes_used - cursor_offset` (underflow panics) and runs
`buf[..len].copy_from_slice(..)` (panics when `len > buf.len()`); only then
is the cursor advanced. -/
def BufFile.read (SZ : Nat) (b : BufFile) (bufLen : Nat) :
    (Except Err (List Nat)) × BufFile :=
  let cursor := b.cursor
  let idx := idx_from_offset SZ cursor
  let slab_start := idx * SZ
  let cursor_offset := cursor - slab_start
  match BufFile.fetch_slab SZ b idx with
  | (.error e, b) => (.error e, b)
  | (.ok slab, b) =>
    match readFill SZ cursor_offset slab b.file with
    | (.error e, slab, file) =>
      (.error e, { b with slabs := b.slabs.update idx slab, file := file })
    | (.ok _, slab, file) =>
      let b := { b with slabs := b.slabs.update idx slab, file := file }
      match checkedSub slab.bytes_used cursor_offset with
      | .error e => (.error e, b)
      | .ok len =>
        if len ≤ bufLen then
          match checkedAddU64 b.cursor len with
          | .error e => (.error e, b)
          | .ok c =>
            (.ok (readBytes slab.data cursor_offset len), { b with cursor := c })
        else (.error .panic, b)

/-- `Write for BufFile::write(buf)` from the source: mark the slab dirty,
run the hole-fill loop, copy `min(buf.len(), SZ - cursor_offset)` bytes into
the block, advance the cursor.  Note the source does not extend
`bytes_used` past the written region. -/
def BufFile.write (SZ : Nat) (b : BufFile) (buf : List Nat) :
    (Except Err Nat) × BufFile :=
  let cursor := b.cursor
  let idx := idx_from_offset SZ cursor
  let slab_start := idx * SZ
  let cursor_offset := cursor - slab_start
  match BufFile.fetch_slab SZ b idx with
  | (.error e, b) => (.error e, b)
  | (.ok slab, b) =>
    let slab := { slab with dirty := true }
    match writeFill cursor_offset slab b.file with
    | (.error e, slab, file) =>
      (.error e, { b with slabs := b.slabs.update idx slab, file := file })
    | (.ok _, slab, file) =>
      let len := min buf.length (SZ - cursor_offset)
      let slab := { slab with data := writeBytes slab.data cursor_offset (buf.take len) }
      let b := { b with slabs := b.slabs.update idx slab, file := file }
      match checkedAddU64 b.cursor len with
      | .error e => (.error e, b)
      | .ok c => (.ok len, { b with cursor := c })

/-- The write-back iteration of `Write::flush for BufFile`: flush each cached
slab at its own aligned offset `idx * SZ`, in the given order, stopping at
the first error. -/
def flushSlabs (SZ : Nat) :
    List (Nat × Slab) → FileM → (Except Err Unit) × List (Nat × Slab) × FileM
  | [], file => (.ok (), [], file)
  | (idx, slab) :: rest, file =>
    match Slab.flush SZ slab file (idx * SZ) with
    | (.error e, slab, file) => (.error e, (idx, slab) :: rest, file)
    | (.ok _, slab, file) =>
      match flushSlabs SZ rest file with
      | (r, rest, file) => (r, (idx, slab) :: rest, file)

/-- `Write::flush for BufFile`: write back every cached slab (the cache
iterates from least- to most-recently-used, i.e. the reverse of the
recency-ordered entry list), then flush the backing store. -/
def BufFile.flush (SZ : Nat) (b : BufFile) : (Except Err Unit) × BufFile :=
  match flushSlabs SZ b.slabs.entries.reverse b.file with
  | (.error e, es, file) =>
    (.error e, { b with slabs := { b.slabs with entries := es.reverse }, file := file })
  | (.ok _, es, file) =>
    match FileM.flush file with
    | (.error e, file) =>
      (.error e, { b with slabs := { b.slabs with entries := es.reverse }, file := file })
    | (.ok _, file) =>
      (.ok (), { b with slabs := { b.slabs with entries := es.reverse }, file := file })

/-- `std::io::SeekFrom`. -/
inductive SeekFrom where
  | start (x : Nat)
  | fromEnd (x : Int)
  | current (x : Int)
  deriving DecidableEq, Repr

/-- `Seek for BufFile::seek` from the source.  `Start` sets the cursor
directly; `End` delegates to the backing store; `Current` computes
`if x < 0 { cur - (-x) as u64 } else { cur - x as u64 }` — both branches
subtract — with debug-mode underflow panicking. -/
def BufFile.seek (b : BufFile) (pos : SeekFrom) : (Except Err Nat) × BufFile :=
  match pos with
  | .start x => (.ok x, { b with cursor := x })
  | .fromEnd x =>
    match b.file.seekEnd x with
    | (.error e, file) => (.error e, { b with file := file })
    | (.ok c, file) => (.ok c, { b with cursor := c, file := file })
  | .current x =>
    let cur := b.cursor
    let r := if x < 0 then checkedSub cur (-x).toNat else checkedSub cur x.toNat
    match r with
    | .error e => (.error e, b)
    | .ok c => (.ok c, { b with cursor := c })

/-- One operation of an interleaved seek/read/write/flush sequence.  A read
carries the caller's buffer length. -/
inductive Op where
  | read (n : Nat)
  | write (bs : List Nat)
  | seek (p : SeekFrom)
  | flush
  deriving DecidableEq, Repr

/-- Observable result of one successful operation: the bytes a read returned,
or the count/position returned by write/seek. -/
inductive OpResult where
  | readRes (bytes : List Nat)
  | writeRes (n : Nat)
  | seekRes (pos : Nat)
  | flushRes
  deriving DecidableEq, Repr

/-- Apply one operation to a `BufFile`. -/
def stepBuf (SZ : Nat) (b : BufFile) : Op → (Except Err OpResult) × BufFile
  | .read n =>
    match BufFile.read SZ b n with
    | (.error e, b) => (.error e, b)
    | (.ok bs, b) => (.ok (.readRes bs), b)
  | .write bs =>
    match BufFile.write SZ b bs with
    | (.error e, b) => (.error e, b)
    | (.ok n, b) => (.ok (.writeRes n), b)
  | .seek p =>
    match BufFile.seek b p with
    | (.error e, b) => (.error e, b)
    | (.ok c, b) => (.ok (.seekRes c), b)
  | .flush =>
    match BufFile.flush SZ b with
    | (.error e, b) => (.error e, b)
    | (.ok _, b) => (.ok .flushRes, b)

/-- Run a sequence of operations on a `BufFile`, collecting the per-operation
results (errors included) and the final state. -/
def runBuf (SZ : Nat) (b : BufFile) : List Op → List (Except Err OpResult) × BufFile
  | [] => ([], b)
  | op :: ops =>
    match stepBuf SZ b op with
    | (r, b) =>
      match runBuf SZ b ops with
      | (rs, b) => (r :: rs, b)

/-- Modelled from the spec: the reference direct-I/O store of spec section 8
("a reference direct-I/O store initialized identically"), used as the
correctness oracle for the equivalence property.  Each operation is applied
directly to the backing store: reads and seeks are the store's own
primitives, and a write stores all of its bytes at the current position and
returns their count. -/
def stepDirect (f : FileM) : Op → (Except Err OpResult) × FileM
  | .read n =>
    match f.read n with
    | (.error e, f) => (.error e, f)
    | (.ok bs, f) => (.ok (.readRes bs), f)
  | .write bs =>
    match f.writeAll bs with
    | (.error e, f) => (.error e, f)
    | (.ok _, f) => (.ok (.writeRes bs.length), f)
  | .seek (.start x) =>
    match f.seekStart x with
    | (.error e, f) => (.error e, f)
    | (.ok c, f) => (.ok (.seekRes c), f)
  | .seek (.fromEnd x) =>
    match f.seekEnd x with
    | (.error e, f) => (.error e, f)
    | (.ok c, f) => (.ok (.seekRes c), f)
  | .seek (.current x) =>
    match f.seekCurrent x with
    | (.error e, f) => (.error e, f)
    | (.ok c, f) => (.ok (.seekRes c), f)
  | .flush =>
    match FileM.flush f with
    | (.error e, f) => (.error e, f)
    | (.ok _, f) => (.ok .flushRes, f)

/-- Run a sequence of operations directly against the reference store. -/
def runDirect (f : FileM) : List Op → List (Except Err OpResult) × FileM
  | [] => ([], f)
  | op :: ops =>
    match stepDirect f op with
    | (r, f) =>
      match runDirect f ops with
      | (rs, f) => (r :: rs, f)

/-! Concrete stores and states used by the concrete theorems below. -/

/-- A fresh `BufFile` over a fault-free backing store holding `cs`, with the
given cache capacity: the state `BufFile::with_capacity` produces when the
store is at position 0. -/
def freshBuf (cs : List Nat) (cap : Nat) : BufFile :=
  { slabs := { entries := [], capacity := cap },
    file := { contents := cs, pos := 0, faults := [] }, cursor := 0 }

/-- An empty, fault-free backing store. -/
def emptyStore : FileM :=
  { contents := [], pos := 0, faults := [] }

/-- A fault-free backing store holding the three bytes 1, 2, 3. -/
def store123 : FileM :=
  { contents := [1, 2, 3], pos := 0, faults := [] }

/-- A dirty slab holding the byte 3 with one valid byte, for the write-back
theorems. -/
def slabDirty : Slab :=
  { data := fun _ => 3, bytes_used := 1, dirty := true }

/-- A fresh `BufFile` whose backing store fails its first I/O call with
code 5. -/
def bufFaultRead : BufFile :=
  { slabs := { entries := [], capacity := 16 },
    file := { contents := [], pos := 0, faults := [some 5] }, cursor := 0 }

/-- A `BufFile` positioned at cursor 3 whose backing store fails its first
I/O call with code 7: a write there hole-fills and hits the failure. -/
def bufFaultWrite : BufFile :=
  { slabs := { entries := [], capacity := 16 },
    file := { contents := [], pos := 0, faults := [some 7] }, cursor := 3 }

/-- A `BufFile` caching one dirty slab, for the flush theorems. -/
def bufDirtyOne : BufFile :=
  { slabs := { entries := [(1, slabDirty)], capacity := 2 },
    file := emptyStore, cursor := 9 }

/-- A `BufFile` at capacity 1 with a dirty slab at index 0, over a store
whose next I/O call fails with code 3: requesting a new slab forces an
eviction whose write-back fails. -/
def bufEvictFail : BufFile :=
  { slabs := { entries := [(0, slabDirty)], capacity := 1 },
    file := { contents := [], pos := 0, faults := [some 3] }, cursor := 0 }

/-- A `BufFile` at capacity 2 with two cached slabs (index 1 most recent),
for the eviction behaviour of the capacity theorem. -/
def bufAtCap : BufFile :=
  { slabs := { entries := [(1, Slab.new), (0, slabDirty)], capacity := 2 },
    file := emptyStore, cursor := 0 }

/-- The spec section 8 eviction scenario at slab size 4 and capacity 2:
write 4 bytes in each of slabs 0, 1 and 2. -/
def opsThreeSlabs : List Op :=
  [.write [7, 7, 7, 7], .seek (.start 4), .write [8, 8, 8, 8],
   .seek (.start 8), .write [9, 9, 9, 9]]

/-- The interleaved sequence of the equivalence counterexample: overwrite the
first byte, seek back to the start, read three bytes. -/
def opsWriteSeekRead : List Op :=
  [.write [9], .seek (.start 0), .read 3]

/-- The spec section 8 valid-length scenario: write 100 bytes at offset 0,
seek to offset 50, write 10 bytes, seek to offset 55, read 10 bytes. -/
def opsValidLength : List Op :=
  [.write (List.replicate 100 7), .seek (.start 50), .write (List.replicate 10 9),
   .seek (.start 55), .read 10]

/-- Capacity/length invariant of the slab cache: the capacity field is the
configured one and the entry count never exceeds it. -/
def CacheInv (cap : Nat) (b : BufFile) : Prop :=
  b.slabs.capacity = cap ∧ b.slabs.len ≤ cap

/-- Contents of the backing store after writing back each listed slab, in
order, at its own aligned offset `idx * SZ` (dirty slabs write their whole
`SZ`-byte block, clean slabs write nothing). -/
def flushedContents (SZ : Nat) (es : List (Nat × Slab)) (contents : List Nat) : List Nat :=
  es.foldl
    (fun cs p => if p.2.dirty then listWrite cs (p.1 * SZ) (readBytes p.2.data 0 SZ) else cs)
    contents

/-! Helper lemmas about the LRU cache model. -/

theorem LruCache.capacity_touch {α : Type} (c : LruCache α) (k : Nat) :
    (c.touch k).capacity = c.capacity := by
  unfold LruCache.touch
  split <;> rfl

theorem LruCache.capacity_insert {α : Type} (c : LruCache α) (k : Nat) (v : α) :
    (c.insert k v).capacity = c.capacity := rfl

theorem LruCache.capacity_update {α : Type} (c : LruCache α) (k : Nat) (v : α) :
    (c.update k v).capacity = c.capacity := rfl

theorem LruCache.remove_lru_capacity {α : Type} {c c' : LruCache α} {e : Nat × α}
    (h : c.remove_lru = some (e, c')) : c'.capacity = c.capacity := by
  unfold LruCache.remove_lru at h
  split at h
  · exact absurd h (by simp)
  · cases h; rfl

theorem LruCache.len_touch {α : Type} (c : LruCache α) (k : Nat) :
    (c.touch k).len = c.len := by
  unfold LruCache.touch LruCache.len
  split
  · rfl
  · next e h =>
    have hm := List.mem_of_find?_eq_some h
    have hp := List.find?_some h
    simp only [List.length_cons]
    exact List.length_eraseP_add_one hm hp

theorem LruCache.len_update {α : Type} (c : LruCache α) (k : Nat) (v : α) :
    (c.update k v).len = c.len := by
  unfold LruCache.update LruCache.len
  simp

theorem LruCache.len_insert_le {α : Type} (c : LruCache α) (k : Nat) (v : α)
    (h : c.len ≤ c.capacity) : (c.insert k v).len ≤ c.capacity := by
  have hsub : (c.entries.eraseP (fun e => e.1 == k)).length ≤ c.entries.length :=
    (List.eraseP_sublist _).length_le
  unfold LruCache.insert LruCache.len at *
  dsimp only
  split
  · next hlt =>
    simp only [List.length_dropLast, List.length_cons] at *
    omega
  · next hge =>
    simp only [List.length_cons, not_lt] at hge ⊢
    omega

theorem LruCache.remove_lru_len {α : Type} {c c' : LruCache α} {e : Nat × α}
    (h : c.remove_lru = some (e, c')) : c'.len + 1 = c.len := by
  unfold LruCache.remove_lru at h
  split at h
  · exact absurd h (by simp)
  · next e2 hlast =>
    cases h
    have hne : c.entries ≠ [] := by
      intro hnil
      rw [hnil] at hlast
      exact absurd hlast (by simp)
    unfold LruCache.len
    simp only [List.length_dropLast]
    have : 0 < c.entries.length := List.length_pos.2 hne
    omega

/-! Preservation of the capacity invariant by every operation. -/

theorem add_slab_inv {cap : Nat} (SZ : Nat) (b : BufFile) (idx : Nat)
    (h : CacheInv cap b) : CacheInv cap ((BufFile.add_slab SZ b idx).2) := by
  obtain ⟨hcap, hlen⟩ := h
  unfold BufFile.add_slab
  split
  · next hfull =>
    cases hr : b.slabs.remove_lru with
    | none => exact ⟨hcap, hlen⟩
    | some pr =>
      obtain ⟨⟨oi, os⟩, rest⟩ := pr
      have hrc := LruCache.remove_lru_capacity hr
      have hrl := LruCache.remove_lru_len hr
      rcases hf : Slab.flush SZ os b.file (oi * SZ) with ⟨r, s', f'⟩
      cases r with
      | error e =>
        simp only [hf]
        exact ⟨by rw [hrc]; exact hcap, by show rest.len ≤ cap; omega⟩
      | ok u =>
        simp only [hf]
        refine ⟨by rw [LruCache.capacity_insert, hrc]; exact hcap, ?_⟩
        have : rest.len ≤ rest.capacity := by rw [hrc]; omega
        have hi := LruCache.len_insert_le rest idx { s' with bytes_used := 0 } this
        rw [hrc] at hi
        rw [hcap] at hi
        exact hi
  · next hnot =>
    refine ⟨by rw [LruCache.capacity_insert]; exact hcap, ?_⟩
    have hi := LruCache.len_insert_le b.slabs idx Slab.new (by rw [hcap]; exact hlen)
    rw [hcap] at hi
    exact hi

theorem fetch_slab_inv {cap : Nat} (SZ : Nat) (b : BufFile) (idx : Nat)
    (h : CacheInv cap b) : CacheInv cap ((BufFile.fetch_slab SZ b idx).2) := by
  obtain ⟨hcap, hlen⟩ := h
  unfold BufFile.fetch_slab
  split
  · split
    · exact ⟨by rw [LruCache.capacity_touch]; exact hcap,
        by rw [LruCache.len_touch]; exact hlen⟩
    · exact ⟨hcap, hlen⟩
  · exact add_slab_inv SZ b idx ⟨hcap, hlen⟩

theorem read_inv {cap : Nat} (SZ : Nat) (b : BufFile) (n : Nat)
    (h : CacheInv cap b) : CacheInv cap ((BufFile.read SZ b n).2) := by
  have hf := fetch_slab_inv SZ b (idx_from_offset SZ b.cursor) h
  unfold BufFile.read
  rcases hfe : BufFile.fetch_slab SZ b (idx_from_offset SZ b.cursor) with ⟨r, b1⟩
  rw [hfe] at hf
  simp only [hfe]
  cases r with
  | error e => exact hf
  | ok slab =>
    rcases hrf : readFill SZ (b.cursor - idx_from_offset SZ b.cursor * SZ) slab b1.file with
      ⟨r2, slab2, file2⟩
    simp only [hrf]
    have hup : CacheInv cap
        { b1 with slabs := b1.slabs.update (idx_from_offset SZ b.cursor) slab2, file := file2 } :=
      ⟨by rw [LruCache.capacity_update]; exact hf.1, by rw [LruCache.len_update]; exact hf.2⟩
    cases r2 with
    | error e => exact hup
    | ok u =>
      cases hcs : checkedSub slab2.bytes_used (b.cursor - idx_from_offset SZ b.cursor * SZ) with
      | error e => simp only [hcs]; exact hup
      | ok len =>
        simp only [hcs]
        split
        · cases hca : checkedAddU64 b1.cursor len with
          | error e => simp only [hca]; exact hup
          | ok c => simp only [hca]; exact ⟨hup.1, hup.2⟩
        · exact hup

theorem write_inv {cap : Nat} (SZ : Nat) (b : BufFile) (buf : List Nat)
    (h : CacheInv cap b) : CacheInv cap ((BufFile.write SZ b buf).2) := by
  have hf := fetch_slab_inv SZ b (idx_from_offset SZ b.cursor) h
  unfold BufFile.write
  rcases hfe : BufFile.fetch_slab SZ b (idx_from_offset SZ b.cursor) with ⟨r, b1⟩
  rw [hfe] at hf
  simp only [hfe]
  cases r with
  | error e => exact hf
  | ok slab =>
    rcases hrf : writeFill (b.cursor - idx_from_offset SZ b.cursor * SZ)
        { slab with dirty := true } b1.file with ⟨r2, slab2, file2⟩
    simp only [hrf]
    have hup : ∀ s2 f2, CacheInv cap
        { b1 with slabs := b1.slabs.update (idx_from_offset SZ b.cursor) s2, file := f2 } :=
      fun s2 f2 =>
        ⟨by rw [LruCache.capacity_update]; exact hf.1, by rw [LruCache.len_update]; exact hf.2⟩
    cases r2 with
    | error e => exact hup _ _
    | ok u =>
      cases hca : checkedAddU64 b1.cursor
          (min buf.length (SZ - (b.cursor - idx_from_offset SZ b.cursor * SZ))) with
      | error e => simp only [hca]; exact hup _ _
      | ok c => simp only [hca]; exact ⟨(hup _ file2).1, (hup _ file2).2⟩

theorem seek_inv {cap : Nat} (b : BufFile) (p : SeekFrom)
    (h : CacheInv cap b) : CacheInv cap ((BufFile.seek b p).2) := by
  unfold BufFile.seek
  cases p with
  | start x => exact ⟨h.1, h.2⟩
  | fromEnd x =>
    rcases hs : b.file.seekEnd x with ⟨r, f'⟩
    simp only [hs]
    cases r with
    | error e => exact ⟨h.1, h.2⟩
    | ok c => exact ⟨h.1, h.2⟩
  | current x =>
    simp only []
    cases hr : if x < 0 then checkedSub b.cursor (-x).toNat else checkedSub b.cursor x.toNat with
    | error e => simp only [hr]; exact ⟨h.1, h.2⟩
    | ok c => simp only [hr]; exact ⟨h.1, h.2⟩

theorem flushSlabs_map_fst (SZ : Nat) (es : List (Nat × Slab)) (f : FileM) :
    ((flushSlabs SZ es f).2.1).map Prod.fst = es.map Prod.fst := by
  induction es generalizing f with
  | nil => rfl
  | cons p rest ih =>
    obtain ⟨i, s⟩ := p
    unfold flushSlabs
    rcases hf : Slab.flush SZ s f (i * SZ) with ⟨r, s', f'⟩
    cases r with
    | error e => simp [hf]
    | ok u =>
      rcases hrec : flushSlabs SZ rest f' with ⟨r2, rest', f2⟩
      have hih := ih f'
      rw [hrec] at hih
      simp only [hf, hrec]
      simp only [List.map_cons]
      rw [hih]

theorem flush_inv {cap : Nat} (SZ : Nat) (b : BufFile)
    (h : CacheInv cap b) : CacheInv cap ((BufFile.flush SZ b).2) := by
  obtain ⟨hcap, hlen⟩ := h
  unfold BufFile.flush
  rcases hfs : flushSlabs SZ b.slabs.entries.reverse b.file with ⟨r, es, f'⟩
  simp only [hfs]
  have hlen2 : es.length = b.slabs.entries.length := by
    have hh := flushSlabs_map_fst SZ b.slabs.entries.reverse b.file
    rw [hfs] at hh
    have h1 := congrArg List.length hh
    simpa using h1
  have hgoal : ∀ (f2 : FileM), CacheInv cap
      { b with slabs := { b.slabs with entries := es.reverse }, file := f2 } := by
    intro f2
    refine ⟨hcap, ?_⟩
    show (es.reverse).length ≤ cap
    rw [List.length_reverse, hlen2]
    exact hlen
  cases r with
  | error e => exact hgoal f'
  | ok u =>
    rcases hfl : FileM.flush f' with ⟨r2, f2⟩
    simp only [hfl]
    cases r2 with
    | error e => exact hgoal f2
    | ok v => exact hgoal f2

theorem stepBuf_inv {cap : Nat} (SZ : Nat) (b : BufFile) (op : Op)
    (h : CacheInv cap b) : CacheInv cap ((stepBuf SZ b op).2) := by
  cases op with
  | read n =>
    have hinv := read_inv SZ b n h
    unfold stepBuf
    rcases hr : BufFile.read SZ b n with ⟨r, b'⟩
    rw [hr] at hinv
    simp only [hr]
    cases r <;> exact hinv
  | write bs =>
    have hinv := write_inv SZ b bs h
    unfold stepBuf
    rcases hr : BufFile.write SZ b bs with ⟨r, b'⟩
    rw [hr] at hinv
    simp only [hr]
    cases r <;> exact hinv
  | seek p =>
    have hinv := seek_inv b p h
    unfold stepBuf
    rcases hr : BufFile.seek b p with ⟨r, b'⟩
    rw [hr] at hinv
    simp only [hr]
    cases r <;> exact hinv
  | flush =>
    have hinv := flush_inv SZ b h
    unfold stepBuf
    rcases hr : BufFile.flush SZ b with ⟨r, b'⟩
    rw [hr] at hinv
    simp only [hr]
    cases r <;> exact hinv

theorem runBuf_inv {cap : Nat} (SZ : Nat) (b : BufFile) (ops : List Op)
    (h : CacheInv cap b) : CacheInv cap ((runBuf SZ b ops).2) := by
  induction ops generalizing b with
  | nil => exact h
  | cons op ops ih =>
    unfold runBuf
    rcases hs : stepBuf SZ b op with ⟨r, b1⟩
    have h1 := stepBuf_inv SZ b op h
    rw [hs] at h1
    simp only [hs]
    rcases hr : runBuf SZ b1 ops with ⟨rs, b2⟩
    have h2 := ih b1 h1
    rw [hr] at h2
    simp only [hr]
    exact h2

/-! Cursor preservation: the logical cursor is only assigned after a
transfer succeeds. -/

theorem add_slab_cursor (SZ : Nat) (b : BufFile) (idx : Nat) :
    ((BufFile.add_slab SZ b idx).2).cursor = b.cursor := by
  unfold BufFile.add_slab
  split
  · cases hr : b.slabs.remove_lru with
    | none => rfl
    | some pr =>
      obtain ⟨⟨oi, os⟩, rest⟩ := pr
      rcases hf : Slab.flush SZ os b.file (oi * SZ) with ⟨r, s', f'⟩
      cases r <;> simp [hf]
  · rfl

theorem fetch_slab_cursor (SZ : Nat) (b : BufFile) (idx : Nat) :
    ((BufFile.fetch_slab SZ b idx).2).cursor = b.cursor := by
  unfold BufFile.fetch_slab
  split
  · split
    · rfl
    · rfl
  · exact add_slab_cursor SZ b idx

theorem read_error_cursor (SZ : Nat) (b : BufFile) (n : Nat) (e : Err)
    (herr : (BufFile.read SZ b n).1 = .error e) :
    ((BufFile.read SZ b n).2).cursor = b.cursor := by
  have hc := fetch_slab_cursor SZ b (idx_from_offset SZ b.cursor)
  unfold BufFile.read at herr ⊢
  rcases hfe : BufFile.fetch_slab SZ b (idx_from_offset SZ b.cursor) with ⟨r, b1⟩
  rw [hfe] at hc
  simp only [hfe] at herr ⊢
  cases r with
  | error e2 => exact hc
  | ok slab =>
    rcases hrf : readFill SZ (b.cursor - idx_from_offset SZ b.cursor * SZ) slab b1.file with
      ⟨r2, slab2, file2⟩
    simp only [hrf] at herr ⊢
    cases r2 with
    | error e2 => exact hc
    | ok u =>
      cases hcs : checkedSub slab2.bytes_used (b.cursor - idx_from_offset SZ b.cursor * SZ) with
      | error e2 => simp only [hcs] at herr ⊢; exact hc
      | ok len =>
        simp only [hcs] at herr ⊢
        by_cases hb : len ≤ n
        · rw [if_pos hb] at herr ⊢
          cases hca : checkedAddU64 b1.cursor len with
          | error e2 => simp only [hca] at herr ⊢; exact hc
          | ok c => rw [hca] at herr; exact absurd herr (by simp)
        · rw [if_neg hb] at herr ⊢
          exact hc

theorem write_error_cursor (SZ : Nat) (b : BufFile) (buf : List Nat) (e : Err)
    (herr : (BufFile.write SZ b buf).1 = .error e) :
    ((BufFile.write SZ b buf).2).cursor = b.cursor := by
  have hc := fetch_slab_cursor SZ b (idx_from_offset SZ b.cursor)
  unfold BufFile.write at herr ⊢
  rcases hfe : BufFile.fetch_slab SZ b (idx_from_offset SZ b.cursor) with ⟨r, b1⟩
  rw [hfe] at hc
  simp only [hfe] at herr ⊢
  cases r with
  | error e2 => exact hc
  | ok slab =>
    rcases hrf : writeFill (b.cursor - idx_from_offset SZ b.cursor * SZ)
        { slab with dirty := true } b1.file with ⟨r2, slab2, file2⟩
    simp only [hrf] at herr ⊢
    cases r2 with
    | error e2 => exact hc
    | ok u =>
      cases hca : checkedAddU64 b1.cursor
          (min buf.length (SZ - (b.cursor - idx_from_offset SZ b.cursor * SZ))) with
      | error e2 => simp only [hca] at herr ⊢; exact hc
      | ok c => rw [hca] at herr; exact absurd herr (by simp)

/-- C9: if `read` or `write` returns an error (slab load, eviction
write-back, or fill-loop read from the backing store), the logical cursor of
the resulting state equals the cursor before the call — the cursor is only
advanced after the transfer has succeeded. -/
theorem error_preserves_cursor (SZ : Nat) (b : BufFile) (n : Nat) (buf : List Nat) :
    (∀ e : Err, (BufFile.read SZ b n).1 = .error e →
      ((BufFile.read SZ b n).2).cursor = b.cursor)
    ∧ (∀ e : Err, (BufFile.write SZ b buf).1 = .error e →
      ((BufFile.write SZ b buf).2).cursor = b.cursor) :=
  ⟨fun e herr => read_error_cursor SZ b n e herr,
   fun e herr => write_error_cursor SZ b buf e herr⟩

/-- Witness for C9: a read whose backing-store fill fails with I/O error
code 5 leaves the cursor at 0, and a hole-filling write whose backing-store
read fails with I/O error code 7 leaves the cursor at 3. -/
theorem error_preserves_cursor_witness :
    (BufFile.read SLAB_SIZE bufFaultRead 4).1 = .error (.io 5)
    ∧ ((BufFile.read SLAB_SIZE bufFaultRead 4).2).cursor = 0
    ∧ (BufFile.write SLAB_SIZE bufFaultWrite [1]).1 = .error (.io 7)
    ∧ ((BufFile.write SLAB_SIZE bufFaultWrite [1]).2).cursor = 3 := by
  refine ⟨rfl, ?_, rfl, ?_⟩
  · exact (error_preserves_cursor SLAB_SIZE bufFaultRead 4 [1]).1 (.io 5) rfl
  · exact (error_preserves_cursor SLAB_SIZE bufFaultWrite 4 [1]).2 (.io 7) rfl

/-! Behaviour of the slab write-back primitive. -/

theorem readBytes_length (d : Nat → Nat) (off len : Nat) :
    (readBytes d off len).length = len := by
  simp [readBytes]

theorem slab_flush_clean (SZ : Nat) (s : Slab) (f : FileM) (off : Nat)
    (h : s.dirty = false) : Slab.flush SZ s f off = (.ok (), s, f) := by
  unfold Slab.flush
  rw [if_neg (by simp [h])]

theorem slab_flush_ok_dirty (SZ : Nat) (s : Slab) (f : FileM) (off : Nat)
    (h : (Slab.flush SZ s f off).1 = .ok ()) :
    ((Slab.flush SZ s f off).2.1).dirty = false := by
  by_cases hd : s.dirty = true
  · unfold Slab.flush at h ⊢
    rw [if_pos hd] at h ⊢
    rcases hs : f.seekStart off with ⟨r1, f1⟩
    simp only [hs] at h ⊢
    cases r1 with
    | error e => exact absurd h (by simp)
    | ok v =>
      rcases hw : f1.writeAll (readBytes s.data 0 SZ) with ⟨r2, f2⟩
      simp only [hw] at h ⊢
      cases r2 with
      | error e => exact absurd h (by simp)
      | ok u => rfl
  · rw [slab_flush_clean SZ s f off (by simpa using hd)]
    simpa using hd

theorem slab_flush_error_id (SZ : Nat) (s : Slab) (f : FileM) (off : Nat) (e : Err)
    (h : (Slab.flush SZ s f off).1 = .error e) :
    ((Slab.flush SZ s f off).2.1) = s := by
  by_cases hd : s.dirty = true
  · unfold Slab.flush at h ⊢
    rw [if_pos hd] at h ⊢
    rcases hs : f.seekStart off with ⟨r1, f1⟩
    simp only [hs] at h ⊢
    cases r1 with
    | error e2 => rfl
    | ok v =>
      rcases hw : f1.writeAll (readBytes s.data 0 SZ) with ⟨r2, f2⟩
      simp only [hw] at h ⊢
      cases r2 with
      | error e2 => rfl
      | ok u => exact absurd h (by simp)
  · rw [slab_flush_clean SZ s f off (by simpa using hd)]

theorem slab_flush_dirty_faultfree (SZ : Nat) (s : Slab) (f : FileM) (off : Nat)
    (hd : s.dirty = true) (hf : f.faults = []) :
    Slab.flush SZ s f off
      = (.ok (), { s with dirty := false },
         { f with contents := listWrite f.contents off (readBytes s.data 0 SZ),
                  pos := off + SZ }) := by
  unfold Slab.flush
  rw [if_pos hd]
  simp [FileM.seekStart, FileM.writeAll, FileM.step, hf, readBytes_length]

/-- C7: slab write-back with a dirty slab seeks the store to the given
aligned offset and writes the entire `SZ`-byte block (not just the valid
prefix), clearing `dirty` exactly when both the seek and the write succeed
and leaving the slab (hence `dirty = true`) untouched on any seek or write
failure; with a clean slab it performs no I/O and changes nothing. -/
theorem slab_flush_spec (SZ : Nat) (s : Slab) (f : FileM) (off : Nat) :
    (s.dirty = false → Slab.flush SZ s f off = (.ok (), s, f))
    ∧ ((Slab.flush SZ s f off).1 = .ok () → ((Slab.flush SZ s f off).2.1).dirty = false)
    ∧ (∀ e : Err, (Slab.flush SZ s f off).1 = .error e → (Slab.flush SZ s f off).2.1 = s)
    ∧ (s.dirty = true → f.faults = [] →
        Slab.flush SZ s f off
          = (.ok (), { s with dirty := false },
             { f with contents := listWrite f.contents off (readBytes s.data 0 SZ),
                      pos := off + SZ })) :=
  ⟨fun h => slab_flush_clean SZ s f off h,
   fun h => slab_flush_ok_dirty SZ s f off h,
   fun e h => slab_flush_error_id SZ s f off e h,
   fun hd hf => slab_flush_dirty_faultfree SZ s f off hd hf⟩

/-- Witness for C7: flushing the concrete dirty slab at aligned offset 4
with slab size 2 writes the whole 2-byte block there (zero-filling the gap
of the previously empty store) and clears the dirty flag; flushing a clean
slab changes nothing. -/
theorem slab_flush_spec_witness :
    Slab.flush 2 slabDirty emptyStore 4
      = (.ok (), { slabDirty with dirty := false },
         { emptyStore with contents := [0, 0, 0, 0, 3, 3], pos := 6 })
    ∧ Slab.flush 2 Slab.new emptyStore 4 = (.ok (), Slab.new, emptyStore) := by
  constructor
  · have h := (slab_flush_spec 2 slabDirty emptyStore 4).2.2.2 rfl rfl
    exact h
  · exact (slab_flush_spec 2 Slab.new emptyStore 4).1 rfl

/-! Behaviour of the full cache write-back. -/

theorem slab_flush_faultfree (SZ : Nat) (s : Slab) (f : FileM) (off : Nat)
    (hf : f.faults = []) :
    (Slab.flush SZ s f off).1 = .ok ()
    ∧ (Slab.flush SZ s f off).2.2.faults = []
    ∧ (Slab.flush SZ s f off).2.2.contents
        = (if s.dirty then listWrite f.contents off (readBytes s.data 0 SZ)
           else f.contents) := by
  by_cases hd : s.dirty = true
  · rw [slab_flush_dirty_faultfree SZ s f off hd hf]
    exact ⟨rfl, hf, by simp [hd]⟩
  · rw [slab_flush_clean SZ s f off (by simpa using hd)]
    refine ⟨rfl, hf, by simp [hd]⟩

theorem flushSlabs_faultfree (SZ : Nat) (es : List (Nat × Slab)) (f : FileM)
    (hf : f.faults = []) :
    (flushSlabs SZ es f).1 = .ok ()
    ∧ (flushSlabs SZ es f).2.2.faults = []
    ∧ (flushSlabs SZ es f).2.2.contents = flushedContents SZ es f.contents := by
  induction es generalizing f with
  | nil => exact ⟨rfl, hf, rfl⟩
  | cons p rest ih =>
    obtain ⟨i, s⟩ := p
    have hsf := slab_flush_faultfree SZ s f (i * SZ) hf
    unfold flushSlabs
    rcases hflush : Slab.flush SZ s f (i * SZ) with ⟨r, s', f1⟩
    rw [hflush] at hsf
    simp only [hflush]
    cases r with
    | error e => exact absurd hsf.1 (by simp)
    | ok u =>
      have hih := ih f1 hsf.2.1
      rcases hrec : flushSlabs SZ rest f1 with ⟨r2, rest2, f2⟩
      rw [hrec] at hih
      simp only [hrec]
      refine ⟨hih.1, hih.2.1, ?_⟩
      rw [hih.2.2, hsf.2.2]
      rfl

theorem flushSlabs_ok_all_clean (SZ : Nat) (es : List (Nat × Slab)) (f : FileM)
    (h : (flushSlabs SZ es f).1 = .ok ()) :
    ∀ p ∈ (flushSlabs SZ es f).2.1, p.2.dirty = false := by
  induction es generalizing f with
  | nil => intro p hp; simp [flushSlabs] at hp
  | cons q rest ih =>
    obtain ⟨i, s⟩ := q
    unfold flushSlabs at h ⊢
    rcases hflush : Slab.flush SZ s f (i * SZ) with ⟨r, s', f1⟩
    simp only [hflush] at h ⊢
    cases r with
    | error e => exact absurd h (by simp)
    | ok u =>
      have hclean : s'.dirty = false := by
        have hh := slab_flush_ok_dirty SZ s f (i * SZ) (by rw [hflush])
        rw [hflush] at hh
        exact hh
      rcases hrec : flushSlabs SZ rest f1 with ⟨r2, rest2, f2⟩
      simp only [hrec] at h ⊢
      intro p hp
      rcases List.mem_cons.1 hp with hp1 | hp2
      · rw [hp1]; exact hclean
      · have hih := ih f1 (by rw [hrec]; exact h)
        rw [hrec] at hih
        exact hih p hp2

theorem flushSlabs_first_fault (SZ : Nat) (es : List (Nat × Slab)) (f : FileM)
    (c : Nat) (restF : List (Option Nat)) (hf : f.faults = some c :: restF) :
    (flushSlabs SZ es f).1 = .error (.io c)
    ∨ ((flushSlabs SZ es f).1 = .ok () ∧ (flushSlabs SZ es f).2.2 = f) := by
  induction es generalizing f with
  | nil => exact .inr ⟨rfl, rfl⟩
  | cons q rest ih =>
    obtain ⟨i, s⟩ := q
    by_cases hd : s.dirty = true
    · have hfl : Slab.flush SZ s f (i * SZ)
          = (.error (.io c), s, { f with faults := restF }) := by
        unfold Slab.flush
        rw [if_pos hd]
        simp [FileM.seekStart, FileM.step, hf]
      unfold flushSlabs
      rw [hfl]
      exact .inl rfl
    · have hcl := slab_flush_clean SZ s f (i * SZ) (by simpa using hd)
      unfold flushSlabs
      rw [hcl]
      rcases hrec : flushSlabs SZ rest f with ⟨r2, rest2, f2⟩
      have hih := ih f hf
      rw [hrec] at hih
      simp only [hrec]
      rcases hih with h1 | ⟨h1, h2⟩
      · exact .inl (by simpa using h1)
      · exact .inr ⟨by simpa using h1, by simpa using h2⟩

/-- C8: `flush()` writes back every currently cached slab at its own aligned
offset `idx * SZ` regardless of access order, then flushes the backing
store's own buffering, and returns the first I/O error encountered; on full
success every cached slab is clean afterwards.  The cache's keys and the
logical cursor are untouched; with a fault-free store the final store
contents are exactly the fold of each slab's whole-block write-back at its
own aligned offset, and when the very first backing-store call is scheduled
to fail with code `c`, that error is the one returned. -/
theorem buffile_flush_spec (SZ : Nat) (b : BufFile) :
    ((BufFile.flush SZ b).1 = .ok () →
      ∀ p ∈ ((BufFile.flush SZ b).2).slabs.entries, p.2.dirty = false)
    ∧ ((BufFile.flush SZ b).2).slabs.entries.map Prod.fst = b.slabs.entries.map Prod.fst
    ∧ ((BufFile.flush SZ b).2).cursor = b.cursor
    ∧ (b.file.faults = [] →
        (BufFile.flush SZ b).1 = .ok ()
        ∧ ((BufFile.flush SZ b).2).file.contents
            = flushedContents SZ b.slabs.entries.reverse b.file.contents)
    ∧ (∀ (c : Nat) (restF : List (Option Nat)), b.file.faults = some c :: restF →
        (BufFile.flush SZ b).1 = .error (.io c)) := by
  have hmap := flushSlabs_map_fst SZ b.slabs.entries.reverse b.file
  unfold BufFile.flush
  rcases hfs : flushSlabs SZ b.slabs.entries.reverse b.file with ⟨r, es, f'⟩
  rw [hfs] at hmap
  simp only [hfs]
  have hmap2 : es.reverse.map Prod.fst = b.slabs.entries.map Prod.fst := by
    rw [List.map_reverse, hmap, List.map_reverse, List.reverse_reverse]
  refine ⟨?_, ?_, ?_, ?_, ?_⟩
  · -- success implies every cached slab is clean
    intro hok p hp
    cases r with
    | error e => simp at hok
    | ok u =>
      simp only [] at hok hp
      rcases hfl : FileM.flush f' with ⟨r2, f2⟩
      rw [hfl] at hok hp
      cases r2 with
      | error e => simp at hok
      | ok v =>
        simp only [] at hp
        have hall := flushSlabs_ok_all_clean SZ b.slabs.entries.reverse b.file
          (by rw [hfs])
        rw [hfs] at hall
        exact hall p (List.mem_reverse.1 hp)
  · -- the cache keys are unchanged
    cases r with
    | error e => exact hmap2
    | ok u =>
      simp only []
      rcases hfl : FileM.flush f' with ⟨r2, f2⟩
      cases r2 with
      | error e => exact hmap2
      | ok v => exact hmap2
  · -- the cursor is unchanged
    cases r with
    | error e => rfl
    | ok u =>
      simp only []
      rcases hfl : FileM.flush f' with ⟨r2, f2⟩
      cases r2 with
      | error e => rfl
      | ok v => rfl
  · -- fault-free: success, and the store holds every slab's block at its
    -- own aligned offset
    intro hfaults
    have hffree := flushSlabs_faultfree SZ b.slabs.entries.reverse b.file hfaults
    rw [hfs] at hffree
    cases r with
    | error e => exact absurd hffree.1 (by simp)
    | ok u =>
      simp only []
      have hfa : f'.faults = [] := hffree.2.1
      have hfl : FileM.flush f' = (.ok (), f') := by
        simp [FileM.flush, FileM.step, hfa]
      rw [hfl]
      exact ⟨rfl, hffree.2.2⟩
  · -- a failure scheduled for the first backing-store call is returned
    intro c restF hfaults
    have hff := flushSlabs_first_fault SZ b.slabs.entries.reverse b.file c restF hfaults
    rw [hfs] at hff
    rcases hff with h1 | ⟨h1, h2⟩
    · cases r with
      | error e =>
        have he : e = Err.io c := by simpa using h1
        rw [he]
      | ok u => exact absurd h1 (by simp)
    · cases r with
      | error e => exact absurd h1 (by simp)
      | ok u =>
        simp only []
        have h2f : f' = b.file := h2
        have hfa : f'.faults = some c :: restF := by rw [h2f]; exact hfaults
        have hfl : FileM.flush f' = (.error (.io c), { f' with faults := restF }) := by
          simp [FileM.flush, FileM.step, hfa]
        rw [hfl]

/-- Witness for C8: flushing a `BufFile` with one dirty slab (index 1, slab
size 2) over a fault-free empty store succeeds, leaves every cached slab
clean, stores the slab's whole block at offset 2, and keeps the cursor. -/
theorem buffile_flush_spec_witness :
    (BufFile.flush 2 bufDirtyOne).1 = .ok ()
    ∧ (∀ p ∈ ((BufFile.flush 2 bufDirtyOne).2).slabs.entries, p.2.dirty = false)
    ∧ ((BufFile.flush 2 bufDirtyOne).2).file.contents = [0, 0, 3, 3]
    ∧ ((BufFile.flush 2 bufDirtyOne).2).cursor = 9 := by
  have h := buffile_flush_spec 2 bufDirtyOne
  have hok := h.2.2.2.1 rfl
  refine ⟨hok.1, h.1 hok.1, ?_, h.2.2.1⟩
  rw [hok.2]
  rfl

/-- C10: when eviction is triggered at capacity and the write-back of the
least-recently-used slab fails, the cache afterwards contains neither the
evicted least-recently-used index nor the newly requested index, and its
size has decreased by one: the entry is removed before the write-back is
attempted, so its dirty contents are dropped on failure. -/
theorem eviction_failure_drops_lru (SZ : Nat) (b : BufFile) (idx oi : Nat)
    (os : Slab) (rest : LruCache Slab)
    (hcap : b.slabs.len = b.slabs.capacity)
    (hlru : b.slabs.remove_lru = some ((oi, os), rest))
    (hnd : (b.slabs.entries.map Prod.fst).Nodup)
    (hni : b.slabs.contains_key idx = false)
    (e : Err) (herr : (BufFile.add_slab SZ b idx).1 = .error e) :
    ((BufFile.add_slab SZ b idx).2).slabs.contains_key idx = false
    ∧ ((BufFile.add_slab SZ b idx).2).slabs.contains_key oi = false
    ∧ ((BufFile.add_slab SZ b idx).2).slabs.len + 1 = b.slabs.len := by
  have hparts : b.slabs.entries.getLast? = some (oi, os)
      ∧ rest.entries = b.slabs.entries.dropLast := by
    unfold LruCache.remove_lru at hlru
    split at hlru
    · exact absurd hlru (by simp)
    · next e2 hlast =>
      rw [Option.some.injEq, Prod.mk.injEq] at hlru
      obtain ⟨he, hr⟩ := hlru
      refine ⟨by rw [← he]; exact hlast, by rw [← hr]⟩
  have hsp : b.slabs.entries.dropLast ++ [(oi, os)] = b.slabs.entries :=
    List.dropLast_append_getLast? (oi, os) (Option.mem_def.2 hparts.1)
  have hlen := LruCache.remove_lru_len hlru
  unfold BufFile.add_slab at herr ⊢
  rw [if_pos hcap] at herr ⊢
  simp only [hlru] at herr ⊢
  rcases hf : Slab.flush SZ os b.file (oi * SZ) with ⟨r, s', f'⟩
  simp only [hf] at herr ⊢
  cases r with
  | ok u => simp at herr
  | error e2 =>
    refine ⟨?_, ?_, hlen⟩
    · -- the requested index was never inserted
      show rest.entries.any (fun p => p.1 == idx) = false
      rw [hparts.2]
      rw [Bool.eq_false_iff]
      intro hany
      rw [List.any_eq_true] at hany
      obtain ⟨p, hpmem, hpk⟩ := hany
      have hpm2 : p ∈ b.slabs.entries := by
        rw [← hsp]
        exact List.mem_append_left _ hpmem
      have hct : b.slabs.entries.any (fun p => p.1 == idx) = true :=
        List.any_eq_true.2 ⟨p, hpm2, hpk⟩
      have hni2 : b.slabs.entries.any (fun p => p.1 == idx) = false := hni
      rw [hct] at hni2
      simp at hni2
    · -- the evicted least-recently-used index is gone
      show rest.entries.any (fun p => p.1 == oi) = false
      rw [hparts.2]
      rw [Bool.eq_false_iff]
      intro hany
      rw [List.any_eq_true] at hany
      obtain ⟨p, hpmem, hpk⟩ := hany
      have hp1 : p.1 = oi := by simpa using hpk
      have hmemk : oi ∈ b.slabs.entries.dropLast.map Prod.fst :=
        List.mem_map.2 ⟨p, hpmem, hp1⟩
      have hnd2 := hnd
      rw [← hsp, List.map_append] at hnd2
      rcases List.nodup_append.1 hnd2 with ⟨_, _, hdisj⟩
      exact hdisj hmemk (by simp)

/-- Witness for C10: at capacity 1 with a dirty slab at index 0 and a store
whose next I/O call fails with code 3, requesting slab 1 fails, and the
cache afterwards contains neither index 0 nor index 1. -/
theorem eviction_failure_drops_lru_witness :
    (BufFile.add_slab 4 bufEvictFail 1).1 = .error (.io 3)
    ∧ ((BufFile.add_slab 4 bufEvictFail 1).2).slabs.contains_key 1 = false
    ∧ ((BufFile.add_slab 4 bufEvictFail 1).2).slabs.contains_key 0 = false
    ∧ ((BufFile.add_slab 4 bufEvictFail 1).2).slabs.len + 1 = bufEvictFail.slabs.len := by
  have h := eviction_failure_drops_lru 4 bufEvictFail 1 0 slabDirty
    { entries := [], capacity := 1 } rfl rfl (by decide) rfl (.io 3) rfl
  exact ⟨rfl, h.1, h.2.1, h.2.2⟩

/-- C6: starting from `with_capacity`, the number of cached slabs never
exceeds the configured capacity, for any sequence of read/write/seek/flush
operations; and whenever a slab is added while the cache is at capacity, the
least-recently-used entry is evicted and written back at its own aligned
offset `lru_index * SZ` before the new slab is inserted. -/
theorem cache_capacity_bound (SZ cap : Nat) (f : FileM) (b₀ : BufFile) (ops : List Op)
    (h0 : BufFile.with_capacity f cap = .ok b₀) :
    ((runBuf SZ b₀ ops).2).slabs.len ≤ cap
    ∧ (∀ (b : BufFile) (idx oi : Nat) (os : Slab) (rest : LruCache Slab),
        b.slabs.len = b.slabs.capacity →
        b.slabs.remove_lru = some ((oi, os), rest) →
        ((BufFile.add_slab SZ b idx).2).file = (Slab.flush SZ os b.file (oi * SZ)).2.2
        ∧ ((Slab.flush SZ os b.file (oi * SZ)).1 = .ok () →
            ((BufFile.add_slab SZ b idx).2).slabs
              = rest.insert idx
                  { (Slab.flush SZ os b.file (oi * SZ)).2.1 with bytes_used := 0 })) := by
  constructor
  · have hinv : CacheInv cap b₀ := by
      unfold BufFile.with_capacity at h0
      rcases hs : f.seekCurrent 0 with ⟨r, f1⟩
      rw [hs] at h0
      cases r with
      | error e => exact absurd h0 (by simp)
      | ok cur =>
        injection h0 with hb
        rw [← hb]
        exact ⟨rfl, by simp [LruCache.len]⟩
    exact (runBuf_inv SZ b₀ ops hinv).2
  · intro b idx oi os rest h1 h2
    unfold BufFile.add_slab
    rw [if_pos h1]
    simp only [h2]
    rcases hf : Slab.flush SZ os b.file (oi * SZ) with ⟨r, s', f'⟩
    simp only [hf]
    cases r with
    | error e =>
      refine ⟨rfl, fun hok => ?_⟩
      simp at hok
    | ok u =>
      exact ⟨rfl, fun _ => rfl⟩

/-- Witness for C6: the spec's eviction scenario (slab size 4, capacity 2,
writes into slabs 0, 1 and 2) ends with at most 2 cached slabs, and an
`add_slab` at capacity leaves the store exactly as the LRU slab's write-back
at its aligned offset does. -/
theorem cache_capacity_bound_witness :
    ((runBuf 4 (freshBuf [] 2) opsThreeSlabs).2).slabs.len ≤ 2
    ∧ ((BufFile.add_slab 4 bufAtCap 2).2).file
        = (Slab.flush 4 slabDirty bufAtCap.file (0 * 4)).2.2 := by
  have h := cache_capacity_bound 4 2 { contents := [], pos := 0, faults := [] }
    (freshBuf [] 2) opsThreeSlabs rfl
  exact ⟨h.1, (h.2 bufAtCap 2 0 slabDirty
    { entries := [(1, Slab.new)], capacity := 2 } rfl rfl).1⟩

/-- C1: the buffered store and the reference direct-I/O store, initialised
with the same three bytes, disagree on an interleaved write/seek/read
sequence: after overwriting the first byte and seeking back, the buffered
read returns the stale backing-store byte 1 where the reference returns the
written byte 9 (the write never extended `bytes_used`, so the read's fill
loop reloads the slab from the store over the written data). -/
theorem buffered_vs_direct_divergence :
    (runBuf SLAB_SIZE (freshBuf [1, 2, 3] 16) opsWriteSeekRead).1
      = [.ok (.writeRes 1), .ok (.seekRes 0), .ok (.readRes [1, 2, 3])]
    ∧ (runDirect store123 opsWriteSeekRead).1
      = [.ok (.writeRes 1), .ok (.seekRes 0), .ok (.readRes [9, 2, 3])]
    ∧ (runBuf SLAB_SIZE (freshBuf [1, 2, 3] 16) opsWriteSeekRead).1
      ≠ (runDirect store123 opsWriteSeekRead).1 := by
  refine ⟨rfl, rfl, ?_⟩
  decide

/-- C2: a successful write does not extend the slab's `bytes_used`: after
writing 100 bytes the slab still reports 0 valid bytes, and the spec's
scenario (write 100 bytes at offset 0, seek to 50, write 10 bytes, read at
offset 55) aborts with an arithmetic-underflow panic in `read` instead of
returning the just-written bytes. -/
theorem write_does_not_extend_valid_length :
    (((runBuf SLAB_SIZE (freshBuf [] 16) [.write (List.replicate 100 7)]).2).slabs.lookup 0).map
        Slab.bytes_used = some 0
    ∧ (runBuf SLAB_SIZE (freshBuf [] 16) opsValidLength).1
      = [.ok (.writeRes 100), .ok (.seekRes 50), .ok (.writeRes 10),
         .ok (.seekRes 55), .error .panic] :=
  ⟨rfl, rfl⟩

/-- C3: `read` does not cap the transfer at the caller's buffer length: with
three bytes available in the slab and a 1-byte buffer, `buf[..len]` with
`len = 3` aborts (slice out of range) instead of copying one byte, while the
same read with a large enough buffer returns all three bytes. -/
theorem read_overruns_small_buffer :
    (BufFile.read SLAB_SIZE (freshBuf [1, 2, 3] 16) 1).1 = .error .panic
    ∧ (BufFile.read SLAB_SIZE (freshBuf [1, 2, 3] 16) 3).1 = .ok [1, 2, 3] :=
  ⟨rfl, rfl⟩

/-- C4: `seek(SeekFrom::Current(d))` subtracts the magnitude of `d` for
positive `d` as well: from cursor 10, seeking by +5 yields 5 (not 15), and
from cursor 0 seeking by +1 aborts with an underflow panic (which the claim
reserves for negative deltas); a negative delta behaves as specified. -/
theorem seek_current_positive_delta_subtracts :
    (BufFile.seek { freshBuf [] 16 with cursor := 10 } (.current 5)).1 = .ok 5
    ∧ (BufFile.seek { freshBuf [] 16 with cursor := 10 } (.current 5)).1 ≠ .ok 15
    ∧ ((BufFile.seek { freshBuf [] 16 with cursor := 10 } (.current 5)).2).cursor = 5
    ∧ (BufFile.seek (freshBuf [] 16) (.current 1)).1 = .error .panic
    ∧ (BufFile.seek { freshBuf [] 16 with cursor := 10 } (.current (-4))).1 = .ok 6 := by
  exact ⟨rfl, by decide, rfl, rfl, rfl⟩

/-- C5: on an empty backing store, seeking to offset 1 and reading 1024
bytes aborts with an arithmetic-underflow panic (`bytes_used = 0` minus
`cursor_offset = 1`) instead of returning `Ok(0)` as the claim (and the
repository's own `test_seek_past_end_read`) expects. -/
theorem read_past_end_empty_store_panics :
    (runBuf SLAB_SIZE (freshBuf [] 16) [.seek (.start 1), .read 1024]).1
      = [.ok (.seekRes 1), .error .panic]
    ∧ (runBuf SLAB_SIZE (freshBuf [] 16) [.seek (.start 1), .read 1024]).1
      ≠ [.ok (.seekRes 1), .ok (.readRes [])] := by
  exact ⟨rfl, by decide⟩

end BufFileRs
